import Mathlib

/-!
Verification of the radiant-stratum-proxy job/share pipeline.

Shallow embedding of the Python sources under `rxd_proxy/`:
bytes are modelled as `List Nat` (each element a byte value), Python ints as
`Nat`/`Int`, and Python floats as exact rationals `ℚ`.  Every definition is
translated from the corresponding source function; source locations are given
in the doc comments.
-/

namespace RxdProxy

/-- Little-endian byte list of a natural number, fixed width `w`
(Python `n.to_bytes(w, "little")`). -/
def natBytesLE : Nat → Nat → List Nat
  | 0, _ => []
  | w + 1, n => (n % 256) :: natBytesLE w (n / 256)

/-- Big-endian byte list of a natural number, fixed width `w`
(Python `n.to_bytes(w, "big")`). -/
def natBytesBE (w n : Nat) : List Nat :=
  (natBytesLE w n).reverse

/-- Integer value of a byte list read little-endian
(Python `int.from_bytes(b, "little")`). -/
def leNat : List Nat → Nat
  | [] => 0
  | b :: rest => b + 256 * leNat rest

/-- Integer value of a byte list read big-endian. -/
def beNat (l : List Nat) : Nat :=
  l.foldl (fun acc b => acc * 256 + b) 0

/-- Split a list into chunks of `k` elements (`k > 0`); used to cut a padded
message into hash blocks. -/
def chunksOf (k : Nat) (l : List Nat) : List (List Nat) :=
  if h : k = 0 ∨ l = [] then []
  else (l.take k) :: chunksOf k (l.drop k)
termination_by l.length
decreasing_by
  simp only [not_or] at h
  have hk : 0 < k := Nat.pos_of_ne_zero h.1
  have hl : 0 < l.length := List.length_pos.mpr h.2
  simp [List.length_drop]
  omega

/-! ### SHA-256 (`hashlib.sha256`, used by `rxd_proxy/utils/hashers.py` `dsha256`) -/

/-- Reduce modulo 2^32. -/
def w32 (n : Nat) : Nat := n % 4294967296

/-- Rotate a 32-bit word right by `r`. -/
def rotr32 (x r : Nat) : Nat := w32 ((x >>> r) ||| (x <<< (32 - r)))

/-- SHA-256 round constants (fractional parts of cube roots of the first 64
primes, 32 bits). -/
def K256 : List Nat :=
  [1116352408, 1899447441, 3049323471, 3921009573, 961987163, 1508970993,
   2453635748, 2870763221, 3624381080, 310598401, 607225278, 1426881987,
   1925078388, 2162078206, 2614888103, 3248222580, 3835390401, 4022224774,
   264347078, 604807628, 770255983, 1249150122, 1555081692, 1996064986,
   2554220882, 2821834349, 2952996808, 3210313671, 3336571891, 3584528711,
   113926993, 338241895, 666307205, 773529912, 1294757372, 1396182291,
   1695183700, 1986661051, 2177026350, 2456956037, 2730485921, 2820302411,
   3259730800, 3345764771, 3516065817, 3600352804, 4094571909, 275423344,
   430227734, 506948616, 659060556, 883997877, 958139571, 1322822218,
   1537002063, 1747873779, 1955562222, 2024104815, 2227730452, 2361852424,
   2428436474, 2756734187, 3204031479, 3329325298]

/-- SHA-256 initial hash state. -/
def H256 : List Nat :=
  [1779033703, 3144134277, 1013904242, 2773480762,
   1359893119, 2600822924, 528734635, 1541459225]

/-- SHA-256/SHA-512 style padding: append `0x80`, zeros, and the bit length as
a `lenBytes`-byte big-endian integer, to a multiple of `blockBytes`. -/
def shaPad (blockBytes lenBytes : Nat) (msg : List Nat) : List Nat :=
  let L := msg.length
  let k := (blockBytes - ((L + 1 + lenBytes) % blockBytes)) % blockBytes
  msg ++ 0x80 :: List.replicate k 0 ++ natBytesBE lenBytes (8 * L)

/-- SHA-256 message schedule: expand 16 block words to 64. -/
def sched256 (block : List Nat) : Array Nat :=
  (List.range 48).foldl
    (fun ws t =>
      let i := t + 16
      let x15 := ws.getD (i - 15) 0
      let x2 := ws.getD (i - 2) 0
      let s0 := (rotr32 x15 7) ^^^ (rotr32 x15 18) ^^^ (x15 >>> 3)
      let s1 := (rotr32 x2 17) ^^^ (rotr32 x2 19) ^^^ (x2 >>> 10)
      ws.push (w32 (ws.getD (i - 16) 0 + s0 + ws.getD (i - 7) 0 + s1)))
    block.toArray

/-- One SHA-256 compression of a 64-byte block into the running state. -/
def comp256 (st : List Nat) (block : List Nat) : List Nat :=
  let ws := sched256 ((chunksOf 4 block).map beNat)
  let out :=
    (List.range 64).foldl
      (fun acc t =>
        match acc with
        | [a, b, c, d, e, f, g, h] =>
          let S1 := (rotr32 e 6) ^^^ (rotr32 e 11) ^^^ (rotr32 e 25)
          let ch := (e &&& f) ^^^ ((e ^^^ 0xffffffff) &&& g)
          let t1 := w32 (h + S1 + ch + K256.getD t 0 + ws.getD t 0)
          let S0 := (rotr32 a 2) ^^^ (rotr32 a 13) ^^^ (rotr32 a 22)
          let mj := (a &&& b) ^^^ (a &&& c) ^^^ (b &&& c)
          let t2 := w32 (S0 + mj)
          [w32 (t1 + t2), a, b, c, w32 (d + t1), e, f, g]
        | other => other)
      st
  List.zipWith (fun x y => w32 (x + y)) st out

/-- SHA-256 of a byte list (`hashlib.sha256(b).digest()`). -/
def sha256 (msg : List Nat) : List Nat :=
  let blocks := chunksOf 64 (shaPad 64 8 msg)
  ((blocks.foldl comp256 H256).map (natBytesBE 4)).flatten

/-- `rxd_proxy/utils/hashers.py` `dsha256`: double SHA-256. -/
def dsha256 (b : List Nat) : List Nat := sha256 (sha256 b)

/-! ### SHA-512/256 (`hashlib.new('sha512_256')`, used by `sha512_256d`) -/

/-- Reduce modulo 2^64. -/
def w64 (n : Nat) : Nat := n % 18446744073709551616

/-- Rotate a 64-bit word right by `r`. -/
def rotr64 (x r : Nat) : Nat := w64 ((x >>> r) ||| (x <<< (64 - r)))

/-- SHA-512 round constants (fractional parts of cube roots of the first 80
primes, 64 bits). -/
def K512 : List Nat :=
  [4794697086780616226, 8158064640168781261, 13096744586834688815, 16840607885511220156,
   4131703408338449720, 6480981068601479193, 10538285296894168987, 12329834152419229976,
   15566598209576043074, 1334009975649890238, 2608012711638119052, 6128411473006802146,
   8268148722764581231, 9286055187155687089, 11230858885718282805, 13951009754708518548,
   16472876342353939154, 17275323862435702243, 1135362057144423861, 2597628984639134821,
   3308224258029322869, 5365058923640841347, 6679025012923562964, 8573033837759648693,
   10970295158949994411, 12119686244451234320, 12683024718118986047, 13788192230050041572,
   14330467153632333762, 15395433587784984357, 489312712824947311, 1452737877330783856,
   2861767655752347644, 3322285676063803686, 5560940570517711597, 5996557281743188959,
   7280758554555802590, 8532644243296465576, 9350256976987008742, 10552545826968843579,
   11727347734174303076, 12113106623233404929, 14000437183269869457, 14369950271660146224,
   15101387698204529176, 15463397548674623760, 17586052441742319658, 1182934255886127544,
   1847814050463011016, 2177327727835720531, 2830643537854262169, 3796741975233480872,
   4115178125766777443, 5681478168544905931, 6601373596472566643, 7507060721942968483,
   8399075790359081724, 8693463985226723168, 9568029438360202098, 10144078919501101548,
   10430055236837252648, 11840083180663258601, 13761210420658862357, 14299343276471374635,
   14566680578165727644, 15097957966210449927, 16922976911328602910, 17689382322260857208,
   500013540394364858, 748580250866718886, 1242879168328830382, 1977374033974150939,
   2944078676154940804, 3659926193048069267, 4368137639120453308, 4836135668995329356,
   5532061633213252278, 6448918945643986474, 6902733635092675308, 7801388544844847127]

/-- SHA-512/256 initial hash state (the NIST SHA-512/t IV for t = 256; the
distinct-IV variant the source's comments insist on). -/
def H512_256 : List Nat :=
  [2463787394917988140, 11481187982095705282, 2563595384472711505, 10824532655140301501,
   10819967247969091555, 13717434660681038226, 3098927326965381290, 1060366662362279074]

/-- SHA-512 message schedule: expand 16 block words to 80. -/
def sched512 (block : List Nat) : Array Nat :=
  (List.range 64).foldl
    (fun ws t =>
      let i := t + 16
      let x15 := ws.getD (i - 15) 0
      let x2 := ws.getD (i - 2) 0
      let s0 := (rotr64 x15 1) ^^^ (rotr64 x15 8) ^^^ (x15 >>> 7)
      let s1 := (rotr64 x2 19) ^^^ (rotr64 x2 61) ^^^ (x2 >>> 6)
      ws.push (w64 (ws.getD (i - 16) 0 + s0 + ws.getD (i - 7) 0 + s1)))
    block.toArray

/-- One SHA-512 compression of a 128-byte block into the running state. -/
def comp512 (st : List Nat) (block : List Nat) : List Nat :=
  let ws := sched512 ((chunksOf 8 block).map beNat)
  let out :=
    (List.range 80).foldl
      (fun acc t =>
        match acc with
        | [a, b, c, d, e, f, g, h] =>
          let S1 := (rotr64 e 14) ^^^ (rotr64 e 18) ^^^ (rotr64 e 41)
          let ch := (e &&& f) ^^^ ((e ^^^ 0xffffffffffffffff) &&& g)
          let t1 := w64 (h + S1 + ch + K512.getD t 0 + ws.getD t 0)
          let S0 := (rotr64 a 28) ^^^ (rotr64 a 34) ^^^ (rotr64 a 39)
          let mj := (a &&& b) ^^^ (a &&& c) ^^^ (b &&& c)
          let t2 := w64 (S0 + mj)
          [w64 (t1 + t2), a, b, c, w64 (d + t1), e, f, g]
        | other => other)
      st
  List.zipWith (fun x y => w64 (x + y)) st out

/-- SHA-512/256 of a byte list (`hashlib.new('sha512_256', b).digest()`):
SHA-512 compression with the SHA-512/256 IV, truncated to 256 bits. -/
def sha512_256 (msg : List Nat) : List Nat :=
  let blocks := chunksOf 128 (shaPad 128 16 msg)
  (((blocks.foldl comp512 H512_256).take 4).map (natBytesBE 8)).flatten

/-- `rxd_proxy/utils/hashers.py` `sha512_256d`: double SHA-512/256, Radiant's
proof-of-work hash. -/
def sha512_256d (b : List Nat) : List Nat := sha512_256 (sha512_256 b)

/-- `rxd_proxy/utils/hashers.py` `radiant_pow`. -/
def radiant_pow (header80 : List Nat) : List Nat := sha512_256d header80

/-! ### Binary encoding primitives (`rxd_proxy/utils/enc.py`) -/

/-- `enc.py` `var_int`: Bitcoin-style compact size prefix.  The Python
function raises on negative input; we take `Nat`. -/
def var_int (i : Nat) : List Nat :=
  if i < 0xFD then natBytesLE 1 i
  else if i ≤ 0xFFFF then 0xfd :: natBytesLE 2 i
  else if i ≤ 0xFFFFFFFF then 0xfe :: natBytesLE 4 i
  else 0xff :: natBytesLE 8 i

/-- `enc.py` `op_push`: script push opcode for a payload of `i` bytes. -/
def op_push (i : Nat) : List Nat :=
  if i < 0x4C then natBytesLE 1 i
  else if i ≤ 0xFF then 0x4c :: natBytesLE 1 i
  else if i ≤ 0xFFFF then 0x4d :: natBytesLE 2 i
  else 0x4e :: natBytesLE 4 i

/-! ### Merkle tree (`rxd_proxy/consensus/merkle.py`) -/

/-- Pair-and-hash one level of the tree: `level[i] + level[i+1]` hashed for
each even `i` (the list has even length whenever the source reaches this
point, after odd-duplication). -/
def pairHash : List (List Nat) → List (List Nat)
  | x :: y :: rest => dsha256 (x ++ y) :: pairHash rest
  | _ => []

/-- The source's odd-length handling: `if len(level) & 1: level.append(level[-1])`. -/
def dupLast (l : List (List Nat)) : List (List Nat) :=
  l ++ (if l.length % 2 = 1 then [l.getLastD []] else [])

theorem pairHash_length : ∀ m : List (List Nat), (pairHash m).length = m.length / 2
  | [] => by simp [pairHash]
  | [_] => by simp [pairHash]
  | _ :: _ :: rest => by
      simp only [pairHash, List.length_cons, pairHash_length rest]
      omega

theorem dupLast_length (l : List (List Nat)) :
    (dupLast l).length ≤ l.length + 1 := by
  simp only [dupLast]
  split <;> simp

/-- The `while len(level) > 1` loop of `merkle_root_from_txids_le`. -/
def merkleLoop (level : List (List Nat)) : List Nat :=
  if h : level.length ≤ 1 then level.headD []
  else merkleLoop (pairHash (dupLast level))
termination_by level.length
decreasing_by
  simp only [not_le] at h
  have h2 := dupLast_length level
  simp only [pairHash_length]
  omega

/-- `merkle.py` `merkle_root_from_txids_le`. -/
def merkle_root_from_txids_le (txids : List (List Nat)) : List Nat :=
  if txids = [] then dsha256 []
  else if txids.length = 1 then txids.headD []
  else merkleLoop txids

/-- The `while len(level) > 1` loop of `merkle_branch_for_index0`, carrying the
`idx` variable (the source starts it at 0 and divides it by 2 each level). -/
def branchLoop (idx : Nat) (level : List (List Nat)) : List (List Nat) :=
  if h : level.length ≤ 1 then []
  else
    (dupLast level).getD (idx ^^^ 1) []
      :: branchLoop (idx / 2) (pairHash (dupLast level))
termination_by level.length
decreasing_by
  simp only [not_le] at h
  have h2 := dupLast_length level
  simp only [pairHash_length]
  omega

/-- `merkle.py` `merkle_branch_for_index0`. -/
def merkle_branch_for_index0 (txids : List (List Nat)) : List (List Nat) :=
  if txids.length ≤ 1 then [] else branchLoop 0 txids

/-- `merkle.py` `fold_branch_index0`. -/
def fold_branch_index0 (leaf_le : List Nat) (branch : List (List Nat)) : List Nat :=
  branch.foldl (fun h sib => dsha256 (h ++ sib)) leaf_le

/-! ### Coinbase builder (`rxd_proxy/consensus/coinbase.py`) -/

/-- Fuel-indexed form of the `while absvalue:` loop of `encode_height_bip34`
(the fuel only bounds the iteration count; `n` iterations always suffice). -/
def natLEBytesMinAux : Nat → Nat → List Nat
  | 0, _ => []
  | fuel + 1, n => if n = 0 then [] else (n % 256) :: natLEBytesMinAux fuel (n / 256)

/-- The `while absvalue:` loop of `encode_height_bip34`: little-endian bytes
of a positive integer, least significant first, no leading-zero padding. -/
def natLEBytesMin (n : Nat) : List Nat := natLEBytesMinAux n n

theorem natLEBytesMinAux_congr :
    ∀ (f1 f2 n : Nat), n ≤ f1 → n ≤ f2 →
      natLEBytesMinAux f1 n = natLEBytesMinAux f2 n := by
  intro f1
  induction f1 with
  | zero =>
    intro f2 n h1 _
    have hn : n = 0 := Nat.le_zero.mp h1
    subst hn
    cases f2 <;> simp [natLEBytesMinAux]
  | succ f1 ih =>
    intro f2 n h1 h2
    cases f2 with
    | zero =>
      have hn : n = 0 := Nat.le_zero.mp h2
      subst hn
      simp [natLEBytesMinAux]
    | succ f2 =>
      by_cases hn : n = 0
      · subst hn; simp [natLEBytesMinAux]
      · have hdiv : n / 256 < n := Nat.div_lt_self (Nat.pos_of_ne_zero hn) (by omega)
        simp only [natLEBytesMinAux, if_neg hn]
        rw [ih f2 (n / 256) (by omega) (by omega)]

/-- The single unfolding equation of the `while absvalue:` loop. -/
theorem natLEBytesMin_eq (n : Nat) :
    natLEBytesMin n = if n = 0 then [] else (n % 256) :: natLEBytesMin (n / 256) := by
  cases n with
  | zero => rfl
  | succ m =>
    show natLEBytesMinAux (m + 1) (m + 1) = _
    simp only [natLEBytesMinAux, if_neg (Nat.succ_ne_zero m), Nat.succ_ne_zero,
      if_false]
    have hdiv : (m + 1) / 256 ≤ m := by omega
    rw [natLEBytesMinAux_congr m ((m + 1) / 256) ((m + 1) / 256) hdiv le_rfl]
    rfl

/-- `coinbase.py` `encode_height_bip34`. -/
def encode_height_bip34 (height : Int) : List Nat :=
  if height = 0 then [0x00]
  else if 1 ≤ height ∧ height ≤ 16 then [0x50 + height.toNat]
  else
    let neg := height < 0
    let absvalue := height.natAbs
    let result := natLEBytesMin absvalue
    let result2 :=
      if (result.getLastD 0) &&& 0x80 ≠ 0 then
        result ++ [if neg then 0x80 else 0]
      else if neg then
        result.dropLast ++ [(result.getLastD 0) ||| 0x80]
      else result
    op_push result2.length ++ result2

/-- The six return values of `coinbase.py` `build_coinbase`. -/
structure CoinbaseResult where
  coinbase_tx : List Nat
  coinbase_txid : List Nat
  coinbase1 : List Nat
  coinbase2 : List Nat
  coinbase1_nowit : List Nat
  coinbase2_nowit : List Nat
deriving DecidableEq

/-- `coinbase.py` `build_coinbase`. -/
def build_coinbase (pub_h160 : List Nat) (height : Int) (arbitrary : List Nat)
    (miner_value : Nat) (outputs_extra : List (Nat × List Nat)) : CoinbaseResult :=
  let bip34_height := encode_height_bip34 height
  let coinbase_script_without_extranonces :=
    bip34_height ++ op_push arbitrary.length ++ arbitrary
  let extranonce_placeholder_size := 8
  let total_script_length :=
    coinbase_script_without_extranonces.length + extranonce_placeholder_size
  let coinbase_txin_start :=
    List.replicate 32 0 ++ List.replicate 4 0xff
      ++ var_int total_script_length ++ coinbase_script_without_extranonces
  let coinbase_txin_end := List.replicate 4 0xff
  let vout_to_miner := [0x76, 0xa9, 0x14] ++ pub_h160 ++ [0x88, 0xac]
  let outputs :=
    (natBytesLE 8 miner_value ++ op_push vout_to_miner.length ++ vout_to_miner)
      :: outputs_extra.map (fun p => natBytesLE 8 p.1 ++ op_push p.2.length ++ p.2)
  let num_outputs := outputs.length
  let coinbase_txin := coinbase_txin_start ++ coinbase_txin_end
  let tx_version := 1
  let coinbase_tx :=
    natBytesLE 4 tx_version ++ [0x01] ++ coinbase_txin
      ++ var_int num_outputs ++ outputs.flatten ++ List.replicate 4 0
  let coinbase1 := natBytesLE 4 tx_version ++ [0x01] ++ coinbase_txin_start
  let coinbase2 :=
    coinbase_txin_end ++ var_int num_outputs ++ outputs.flatten ++ List.replicate 4 0
  { coinbase_tx := coinbase_tx
    coinbase_txid := dsha256 coinbase_tx
    coinbase1 := coinbase1
    coinbase2 := coinbase2
    coinbase1_nowit := coinbase1
    coinbase2_nowit := coinbase2 }

/-! ### Header and targets (`rxd_proxy/consensus/header.py`, `targets.py`) -/

/-- `header.py` `build_header80_le`. -/
def build_header80_le (version : Nat)
    (prevhash_le merkleroot_le ntime_le bits_le nonce_le : List Nat) : List Nat :=
  natBytesLE 4 version ++ prevhash_le ++ merkleroot_le
    ++ ntime_le ++ bits_le ++ nonce_le

/-- `targets.py` `DIFF1_TARGET` (session.py re-declares the same literal as
`DIFF1` inside `handle_submit`). -/
def DIFF1_TARGET : Nat :=
  0x00000000ffff0000000000000000000000000000000000000000000000000000

/-! ### Share validation (`rxd_proxy/stratum/session.py` `handle_submit`) -/

/-- Python `hex(n)[2:]` for non-negative `n` (lowercase hex digits, no
leading zeros, `"0"` for zero). -/
def pyHex (n : Nat) : String := String.mk (Nat.toDigits 16 n)

/-- The template fields read by `handle_submit`; `none` models an
unset/falsy field (`None` in `TemplateState`). -/
structure SubmitState where
  job_counter : Nat
  coinbase1 : Option (List Nat)
  coinbase2 : Option (List Nat)
  coinbase1_nowit : Option (List Nat)
  coinbase2_nowit : Option (List Nat)
  merkle_branches : List (List Nat)
  version : Nat
  prevHash_header : Option (List Nat)
  bits_le : Option (List Nat)
  target : Option Nat

/-- `session.py:713`: `sent_diff = getattr(self, "_share_difficulty", 1.0) or 1.0`
(a missing attribute or a falsy `0.0` both fall back to 1.0). -/
def sentDiffOf (stored : Option ℚ) : ℚ :=
  match stored with
  | none => 1
  | some d => if d = 0 then 1 else d

/-- `session.py:675-697`: reconstruct the 80-byte header from the coinbase
splits, extranonces, folded merkle branch, and the byte-reversed
ntime/nonce hex the miner submitted. -/
def reconstructHeader (st : SubmitState) (en1 en2 ntime nonce : List Nat) : List Nat :=
  let coinbase_nowit :=
    st.coinbase1_nowit.getD [] ++ en1 ++ en2 ++ st.coinbase2_nowit.getD []
  let coinbase_txid_le := dsha256 coinbase_nowit
  let merkle_root_le := fold_branch_index0 coinbase_txid_le st.merkle_branches
  build_header80_le st.version (st.prevHash_header.getD []) merkle_root_le
    ntime.reverse (st.bits_le.getD []) nonce.reverse

/-- `session.py:704-706`: `hnum = int.from_bytes(radiant_pow(header80), "little")`. -/
def submitPow (st : SubmitState) (en1 en2 ntime nonce : List Nat) : Nat :=
  leNat (radiant_pow (reconstructHeader st en1 en2 ntime nonce))

/-- `session.py` `handle_submit`, share decision path: the early rejects
(stale job id, missing template parts) and the proof-of-work
classification.  Returns the boolean JSON-RPC result.  Side effects
(hashrate tracking, VarDiff feeding, block submission over RPC) do not
change the returned value for an accepted share and are not modelled. -/
def handle_submit (st : SubmitState) (en1 : List Nat) (sentStored : Option ℚ)
    (jobId : String) (en2 ntime nonce : List Nat) : Bool :=
  if jobId ≠ pyHex st.job_counter then false
  else if ¬(st.coinbase1.isSome ∧ st.coinbase2.isSome
      ∧ st.coinbase1_nowit.isSome ∧ st.coinbase2_nowit.isSome) then false
  else if ¬(st.prevHash_header.isSome ∧ st.bits_le.isSome ∧ st.target.isSome) then
    false
  else
    let hnum := submitPow st en1 en2 ntime nonce
    let target_int := st.target.getD 0
    let is_block := hnum ≤ target_int
    let sent_diff := sentDiffOf sentStored
    let share_diff : ℚ := (DIFF1_TARGET : ℚ) / ((max 1 hnum : Nat) : ℚ)
    if ¬is_block ∧ share_diff / sent_diff < (0.99 : ℚ) then false
    else true

/-! ### Worker authorization (`rxd_proxy/stratum/session.py` `handle_authorize`) -/

/-- Outcome of `handle_authorize`: either an `RPCError` raised back to the
client as an error reply (the transport stays open), or a normal reply
carrying Python's return value (`None` when the handler falls off the end). -/
inductive AuthOutcome where
  | errorReply (code : Nat)
  | reply (result : Option Bool)
deriving DecidableEq

/-- `session.py:451-453`: accepted base58check version bytes per network. -/
def expectedVersions (testnet : Bool) : List Nat :=
  if testnet then [111, 196] else [0, 5]

/-- `session.py` `handle_authorize`, decision core.  `decoded` is the result
of the external `base58.b58decode_check` call (`none` when it raised); the
`except Exception` clause turns any decode failure into `RPCError(20, ...)`.
`jobReady` is the truthiness of `state.current_job_params()`; the handler
returns `True` only inside `if job:` and otherwise falls off the end,
returning `None`. -/
def handle_authorize (testnet : Bool) (decoded : Option (List Nat))
    (jobReady : Bool) : AuthOutcome :=
  match decoded with
  | none => .errorReply 20
  | some addr_decoded =>
    if addr_decoded.headD 0 ∉ expectedVersions testnet then .errorReply 20
    else
      let pub_h160 := addr_decoded.drop 1
      if pub_h160.length ≠ 20 then .errorReply 20
      else if jobReady then .reply (some true)
      else .reply none

/-! ### Template updater (`rxd_proxy/state/updater.py` `update_once`) -/

/-- The control-flow skeleton of `update_once` that decides its return value:
heights and timestamps as read from `TemplateState` (`-1` when unset) and the
freshly fetched template.  Returns `(published, retval)` where `published`
is true exactly when the `if new_block or roll_due:` body runs to the
notification fan-out (i.e. a job is built and `set_difficulty`/`notify` are
sent), and `retval` is the Python return value. -/
def update_once_decision (prevHeight prevTimestamp heightInt ts roll : Int)
    (hasPayout : Bool) : Bool × Bool :=
  let new_block := prevHeight = -1 ∨ prevHeight ≠ heightInt
  let roll_due := prevTimestamp = -1 ∨ prevTimestamp + roll ≤ ts
  if new_block ∨ roll_due then
    if ¬hasPayout then (false, false)
    else (true, true)
  else (false, true)

/-! ### VarDiff controller (`rxd_proxy/stratum/vardiff.py`) -/

/-- The constructor arguments of `VarDiffManager.__init__` that the
difficulty state machine reads (floats as exact rationals). -/
structure VDConfig where
  target : ℚ
  min_diff : ℚ
  max_diff : ℚ
  retarget_shares : Nat
  retarget_time : ℚ
  max_window_shares : Nat
  down_step : ℚ
  up_step : ℚ
  ema_alpha : ℚ

/-- `vardiff.py` `MinerState` (timestamps and difficulties as rationals). -/
structure MinerState where
  difficulty : ℚ
  shares : List (ℚ × ℚ)
  last_retarget : ℚ
  ema_interval : Option ℚ

/-- `vardiff.py` `VarDiffManager._init_miner`: a brand-new miner entry starts
at `self.min_diff` with an empty window. -/
def initMiner (cfg : VDConfig) (now : ℚ) : MinerState :=
  { difficulty := cfg.min_diff
    shares := []
    last_retarget := now
    ema_interval := none }

/-- `deque(maxlen=N).append`: append on the right, dropping from the left
when the window is full. -/
def appendWindow (maxLen : Nat) (l : List (ℚ × ℚ)) (x : ℚ × ℚ) : List (ℚ × ℚ) :=
  let l2 := l ++ [x]
  if maxLen < l2.length then l2.drop (l2.length - maxLen) else l2

/-- `vardiff.py` `VarDiffManager._maybe_retarget`.  The chain-headroom clamp
in the source (`from ..state.template import global_state`) always raises
`ImportError` — `state/template.py` defines no `global_state` — and the
surrounding `except Exception` swallows it, so that clamp never executes and
is omitted here. -/
def maybeRetarget (cfg : VDConfig) (st : MinerState) (now : ℚ) : MinerState :=
  let share_count := st.shares.length
  let elapsed := now - st.last_retarget
  if share_count < 2 then st
  else if share_count < cfg.retarget_shares ∧ elapsed < cfg.retarget_time then st
  else
    let first_ts := (st.shares.headD (0, 0)).1
    let last_ts := (st.shares.getLastD (0, 0)).1
    let window_time := last_ts - first_ts
    if window_time ≤ 0 then st
    else
      let avg_interval := window_time / ((share_count : ℚ) - 1)
      let blended :=
        match st.ema_interval with
        | some e => (0.5 : ℚ) * avg_interval + (0.5 : ℚ) * e
        | none => avg_interval
      let r0 := cfg.target / blended
      let nd0 := st.difficulty * r0
      let nd1 :=
        if r0 > cfg.up_step then st.difficulty * cfg.up_step
        else if r0 < cfg.down_step then st.difficulty * cfg.down_step
        else nd0
      let nd2 := max cfg.min_diff (min cfg.max_diff nd1)
      if |nd2 - st.difficulty| / max st.difficulty ((1 : ℚ) / 1000000000000) ≥ (0.05 : ℚ)
      then
        { difficulty := nd2, shares := [], last_retarget := now, ema_interval := none }
      else st

/-- `vardiff.py` `VarDiffManager.record_share` for one miner: update the
inter-arrival EMA, append to the bounded window, then maybe retarget.
`now` is the `ts or time.time()` value used for the share; `retNow` is the
fresh `time.time()` read inside `_maybe_retarget`. -/
def recordShare (cfg : VDConfig) (st : MinerState) (shareDiffOpt : Option ℚ)
    (now retNow : ℚ) : MinerState :=
  let diff_used :=
    match shareDiffOpt with
    | none => st.difficulty
    | some d => if d = 0 then st.difficulty else d
  let ema2 :=
    if st.shares ≠ [] then
      let delta := now - (st.shares.getLastD (0, 0)).1
      some (match st.ema_interval with
            | none => delta
            | some e => cfg.ema_alpha * delta + (1 - cfg.ema_alpha) * e)
    else st.ema_interval
  let shares2 := appendWindow cfg.max_window_shares st.shares (now, diff_used)
  maybeRetarget cfg { st with shares := shares2, ema_interval := ema2 } retNow

/-- A sequence of `record_share` calls for one miner, each event carrying
`(share_difficulty, ts, time.time()-at-retarget)`. -/
def runShares (cfg : VDConfig) (st : MinerState)
    (events : List (Option ℚ × ℚ × ℚ)) : MinerState :=
  events.foldl (fun s e => recordShare cfg s e.1 e.2.1 e.2.2) st

/-- The `VarDiffManager` defaults from `vardiff.py` `__init__` (target 15 s,
min 16, max 2,000,000, retarget after 20 shares or 300 s, window 120,
steps 0.5×/2×, EMA alpha 0.3). -/
def defaultVDConfig : VDConfig :=
  { target := 15
    min_diff := 16
    max_diff := 2000000
    retarget_shares := 20
    retarget_time := 300
    max_window_shares := 120
    down_step := 0.5
    up_step := 2
    ema_alpha := 0.3 }

/-- The keyword parameters accepted by `vardiff.py` `VarDiffManager.__init__`
(besides `self`), in source order. -/
def varDiffManagerInitParams : List String :=
  ["target_share_time", "min_difficulty", "max_difficulty", "retarget_shares",
   "retarget_time", "max_window_shares", "down_step", "up_step", "ema_alpha",
   "inactivity_lower", "inactivity_drop_factor", "inactivity_multiples",
   "state_path", "warm_start_minutes"]

/-- The keyword arguments `stratum/server.py` `start_server` passes to
`VarDiffManager(...)` when `settings.enable_vardiff` is set, in source
order (server.py lines 35-50). -/
def startServerVarDiffKwargs : List String :=
  ["target_share_time", "min_difficulty", "max_difficulty", "start_difficulty",
   "retarget_shares", "retarget_time", "down_step", "up_step", "ema_alpha",
   "inactivity_lower", "inactivity_drop_factor", "inactivity_multiples",
   "state_path", "warm_start_minutes"]

/-- The per-session difficulty the updater assigns on refresh
(`state/updater.py` lines 132-174): with VarDiff enabled, a session in
`all_sessions` keeps its current `_share_difficulty` unless it is unset or
non-positive, in which case (and for every session in `new_sessions`) it is
set to the divisor-based `difficulty = network_diff / share_difficulty_divisor`. -/
def updaterSessionDifficulty (vardiffEnabled : Bool) (isNewSession : Bool)
    (current : Option ℚ) (divisorDifficulty : ℚ) : ℚ :=
  if isNewSession then divisorDifficulty
  else if vardiffEnabled then
    match current with
    | none => divisorDifficulty
    | some d => if d ≤ 0 then divisorDifficulty else d
  else divisorDifficulty

/-! ## Supporting lemmas -/

theorem dupLast_cons_cons (x y : List Nat) (rest : List (List Nat)) :
    dupLast (x :: y :: rest) =
      x :: y :: (rest ++
        (if (x :: y :: rest).length % 2 = 1
          then [(x :: y :: rest).getLastD []] else [])) := by
  simp [dupLast]

theorem pairHash_cons_cons (x y : List Nat) (rest : List (List Nat)) :
    pairHash (x :: y :: rest) = dsha256 (x ++ y) :: pairHash rest := rfl

theorem fold_branch_cons (leaf s : List Nat) (br : List (List Nat)) :
    fold_branch_index0 leaf (s :: br) = fold_branch_index0 (dsha256 (leaf ++ s)) br :=
  rfl

theorem branchLoop_cons_cons (idx : Nat) (x y : List Nat) (rest : List (List Nat)) :
    branchLoop idx (x :: y :: rest) =
      (dupLast (x :: y :: rest)).getD (idx ^^^ 1) []
        :: branchLoop (idx / 2) (pairHash (dupLast (x :: y :: rest))) := by
  rw [branchLoop]
  exact dif_neg (by simp)

theorem merkleLoop_cons_cons (x y : List Nat) (rest : List (List Nat)) :
    merkleLoop (x :: y :: rest) = merkleLoop (pairHash (dupLast (x :: y :: rest))) := by
  rw [merkleLoop]
  exact dif_neg (by simp)

/-- Folding leaf 0 through `branchLoop 0` rebuilds `merkleLoop`, for any
non-empty level. -/
theorem fold_branchLoop :
    ∀ (n : Nat) (level : List (List Nat)), level.length ≤ n → level ≠ [] →
      fold_branch_index0 (level.headD []) (branchLoop 0 level) = merkleLoop level := by
  intro n
  induction n with
  | zero =>
    intro level hlen hne
    cases level with
    | nil => exact absurd rfl hne
    | cons a t => simp at hlen
  | succ n ih =>
    intro level hlen hne
    match level with
    | [x] => simp [branchLoop, merkleLoop, fold_branch_index0]
    | x :: y :: rest =>
      rw [branchLoop_cons_cons, merkleLoop_cons_cons]
      rw [dupLast_cons_cons]
      set e := (if (x :: y :: rest).length % 2 = 1
          then [(x :: y :: rest).getLastD []] else []) with he
      rw [pairHash_cons_cons]
      have hgetD : (x :: y :: (rest ++ e)).getD (0 ^^^ 1) [] = y := rfl
      rw [hgetD, fold_branch_cons]
      have hlen2 : (dsha256 (x ++ y) :: pairHash (rest ++ e)).length ≤ n := by
        have h1 : e.length ≤ 1 := by rw [he]; split <;> simp
        have h2 := pairHash_length (rest ++ e)
        simp only [List.length_cons, List.length_append] at *
        omega
      have := ih (dsha256 (x ++ y) :: pairHash (rest ++ e)) hlen2 (by simp)
      simpa using this

/-- `branchLoop 0` never reads the leaf at index 0: replacing the head of the
level leaves the branch unchanged. -/
theorem branchLoop_head_irrelevant :
    ∀ (n : Nat) (t : List (List Nat)) (x y : List Nat), t.length ≤ n →
      branchLoop 0 (x :: t) = branchLoop 0 (y :: t) := by
  intro n
  induction n with
  | zero =>
    intro t x y hlen
    have : t = [] := List.eq_nil_of_length_eq_zero (Nat.le_zero.mp hlen)
    subst this
    simp [branchLoop]
  | succ n ih =>
    intro t x y hlen
    match t with
    | [] => simp [branchLoop]
    | b :: rest =>
      have hlast : ∀ z : List Nat, (z :: b :: rest).getLastD [] = (b :: rest).getLastD b := by
        intro z
        cases rest with
        | nil => simp only [List.getLastD_cons]
        | cons c cs => simp only [List.getLastD_cons]
      have hee : (if (x :: b :: rest).length % 2 = 1
            then [(x :: b :: rest).getLastD []] else [])
          = (if (y :: b :: rest).length % 2 = 1
            then [(y :: b :: rest).getLastD []] else []) := by
        rw [hlast x, hlast y]
        simp only [List.length_cons]
      rw [branchLoop_cons_cons, branchLoop_cons_cons,
        dupLast_cons_cons, dupLast_cons_cons, hee]
      set e := (if (y :: b :: rest).length % 2 = 1
          then [(y :: b :: rest).getLastD []] else []) with he
      rw [pairHash_cons_cons, pairHash_cons_cons]
      have hlen2 : (pairHash (rest ++ e)).length ≤ n := by
        have h1 : e.length ≤ 1 := by rw [he]; split <;> simp
        have h2 := pairHash_length (rest ++ e)
        simp only [List.length_cons, List.length_append] at *
        omega
      have hrec := ih (pairHash (rest ++ e)) (dsha256 (x ++ b)) (dsha256 (y ++ b)) hlen2
      simp only [show (0 : Nat) ^^^ 1 = 1 from rfl, show (0 : Nat) / 2 = 0 from rfl,
        List.getD_cons_succ, List.getD_cons_zero]
      rw [hrec]

theorem natLEBytesMin_getLastD_lt :
    ∀ n d : Nat, d < 256 → (natLEBytesMin n).getLastD d < 256 := by
  intro n
  induction n using Nat.strong_induction_on with
  | _ n ih =>
    intro d hd
    rw [natLEBytesMin_eq]
    split
    · simpa using hd
    · rw [List.getLastD_cons]
      have hpos : n ≠ 0 := by assumption
      exact ih (n / 256) (Nat.div_lt_self (Nat.pos_of_ne_zero hpos) (by omega))
        (n % 256) (Nat.mod_lt _ (by omega))

theorem leNat_natLEBytesMin : ∀ n : Nat, leNat (natLEBytesMin n) = n := by
  intro n
  induction n using Nat.strong_induction_on with
  | _ n ih =>
    rw [natLEBytesMin_eq]
    split
    · simp [leNat]; omega
    · have hpos : n ≠ 0 := by assumption
      rw [show leNat ((n % 256) :: natLEBytesMin (n / 256))
          = n % 256 + 256 * leNat (natLEBytesMin (n / 256)) from rfl]
      rw [ih (n / 256) (Nat.div_lt_self (Nat.pos_of_ne_zero hpos) (by omega))]
      omega

theorem leNat_append_zero (l : List Nat) : leNat (l ++ [0]) = leNat l := by
  induction l with
  | nil => simp [leNat]
  | cons b rest ih =>
    show b + 256 * leNat (rest ++ [0]) = b + 256 * leNat rest
    rw [ih]

theorem getLastD_append_singleton (l : List Nat) (a d : Nat) :
    (l ++ [a]).getLastD d = a := by
  induction l generalizing d with
  | nil => simp [List.getLastD_cons]
  | cons x rest ih =>
    rw [List.cons_append, List.getLastD_cons]
    exact ih x

theorem and128_iff {b : Nat} (hb : b < 256) : b &&& 128 ≠ 0 ↔ 128 ≤ b := by
  have h1 : b &&& 128 = (b.testBit 7).toNat * 128 := by
    rw [show (128 : Nat) = 2 ^ 7 by norm_num, Nat.and_two_pow]
  have h2 : b.testBit 7 = decide (b / 128 % 2 = 1) := by
    rw [Nat.testBit_to_div_mod]
  rw [h1, h2]
  rcases h3 : decide (b / 128 % 2 = 1) with _ | _
  · have h4 := of_decide_eq_false h3
    exact iff_of_false (by simp) (by omega)
  · have h4 := of_decide_eq_true h3
    exact iff_of_true (by norm_num) (by omega)

/-- Following the spec's words in §4.B: the "minimally-encoded signed
little-endian script number" of a non-negative integer — its little-endian
bytes, with a zero byte appended exactly when the top byte would carry the
sign bit.  Used to compare `encode_height_bip34` against the spec. -/
def minimalScriptNumLE (n : Nat) : List Nat :=
  if 128 ≤ (natLEBytesMin n).getLastD 0 then natLEBytesMin n ++ [0]
  else natLEBytesMin n

/-! ## Claim theorems -/

/-- C2, counterexample: for the concrete parameters `h160 = 20 zero bytes`,
`height = 1`, empty arbitrary data, value 0, no extra outputs, and the 8-byte
zero extranonce, `coinbase_1 ∥ extranonce ∥ coinbase_2` does **not** equal the
`coinbase_tx` returned by `build_coinbase`: the returned full serialization
contains no extranonce bytes at all (`coinbase_1 ∥ coinbase_2 = coinbase_tx`),
so splicing 8 bytes in yields a longer string. -/
theorem c2_counterexample :
    (build_coinbase (List.replicate 20 0) 1 [] 0 []).coinbase1
        ++ List.replicate 8 0
        ++ (build_coinbase (List.replicate 20 0) 1 [] 0 []).coinbase2
      ≠ (build_coinbase (List.replicate 20 0) 1 [] 0 []).coinbase_tx := by
  decide

/-- C2, amended: for every choice of `build_coinbase` parameters,
`coinbase_1 ∥ coinbase_2` (without the extranonce) equals the returned full
serialization, whose dsha256 is the returned `coinbase_txid`; and for every
8-byte extranonce, in the spliced serialization
`coinbase_1 ∥ extranonce ∥ coinbase_2` the extranonce lies at the end of the
input scriptSig and the varint announced in the input equals the actual
scriptSig length (base script plus the 8 extranonce bytes). -/
theorem c2_coinbase_split_amended (pub : List Nat) (height : Int)
    (arb en : List Nat) (mv : Nat) (extra : List (Nat × List Nat))
    (hen : en.length = 8) :
    (build_coinbase pub height arb mv extra).coinbase1
        ++ (build_coinbase pub height arb mv extra).coinbase2
      = (build_coinbase pub height arb mv extra).coinbase_tx
    ∧ (build_coinbase pub height arb mv extra).coinbase_txid
      = dsha256 (build_coinbase pub height arb mv extra).coinbase_tx
    ∧ ∃ tail : List Nat,
        (build_coinbase pub height arb mv extra).coinbase1 ++ en
            ++ (build_coinbase pub height arb mv extra).coinbase2
          = natBytesLE 4 1 ++ [0x01]
              ++ List.replicate 32 0 ++ List.replicate 4 0xff
              ++ var_int (encode_height_bip34 height ++ op_push arb.length
                    ++ arb ++ en).length
              ++ (encode_height_bip34 height ++ op_push arb.length ++ arb ++ en)
              ++ tail := by
  refine ⟨?_, rfl, ?_⟩
  · simp [build_coinbase, List.append_assoc]
  · refine ⟨(build_coinbase pub height arb mv extra).coinbase2, ?_⟩
    have hlen : (encode_height_bip34 height ++ op_push arb.length ++ arb ++ en).length
        = (encode_height_bip34 height ++ op_push arb.length ++ arb).length + 8 := by
      simp only [List.length_append, hen]
    rw [hlen]
    simp [build_coinbase, List.append_assoc]

theorem c2_coinbase_split_amended_witness :
    (List.replicate 8 0).length = 8
    ∧ ((build_coinbase [] 0 [] 0 []).coinbase1
          ++ (build_coinbase [] 0 [] 0 []).coinbase2
        = (build_coinbase [] 0 [] 0 []).coinbase_tx
      ∧ (build_coinbase [] 0 [] 0 []).coinbase_txid
        = dsha256 (build_coinbase [] 0 [] 0 []).coinbase_tx
      ∧ ∃ tail : List Nat,
          (build_coinbase [] 0 [] 0 []).coinbase1 ++ List.replicate 8 0
              ++ (build_coinbase [] 0 [] 0 []).coinbase2
            = natBytesLE 4 1 ++ [0x01]
                ++ List.replicate 32 0 ++ List.replicate 4 0xff
                ++ var_int (encode_height_bip34 0 ++ op_push ([] : List Nat).length
                      ++ ([] : List Nat) ++ List.replicate 8 0).length
                ++ (encode_height_bip34 0 ++ op_push ([] : List Nat).length
                      ++ ([] : List Nat) ++ List.replicate 8 0)
                ++ tail) :=
  ⟨by decide, c2_coinbase_split_amended [] 0 [] (List.replicate 8 0) 0 [] (by decide)⟩

/-- C3: for every non-empty list `T` of txids, folding `T[0]` through the
index-0 merkle branch reproduces the merkle root; the empty list hashes to
`dsha256(empty)`; and the branch of a singleton list is empty. -/
theorem c3_merkle_round_trip :
    (∀ T : List (List Nat), T ≠ [] →
      fold_branch_index0 (T.headD []) (merkle_branch_for_index0 T)
        = merkle_root_from_txids_le T)
    ∧ merkle_root_from_txids_le [] = dsha256 []
    ∧ (∀ x : List Nat, merkle_branch_for_index0 [x] = []) := by
  refine ⟨?_, by simp [merkle_root_from_txids_le],
    fun x => by simp [merkle_branch_for_index0]⟩
  intro T hne
  match T with
  | [x] => simp [merkle_branch_for_index0, merkle_root_from_txids_le,
      fold_branch_index0]
  | x :: y :: rest =>
    have h1 : merkle_branch_for_index0 (x :: y :: rest)
        = branchLoop 0 (x :: y :: rest) := by
      simp [merkle_branch_for_index0]
    have h2 : merkle_root_from_txids_le (x :: y :: rest)
        = merkleLoop (x :: y :: rest) := by
      simp [merkle_root_from_txids_le]
    rw [h1, h2]
    exact fold_branchLoop (x :: y :: rest).length _ le_rfl (by simp)

theorem c3_merkle_round_trip_witness :
    ([[0]] : List (List Nat)) ≠ []
    ∧ fold_branch_index0 (([[0]] : List (List Nat)).headD [])
        (merkle_branch_for_index0 [[0]])
      = merkle_root_from_txids_le [[0]] :=
  ⟨by decide, c3_merkle_round_trip.1 [[0]] (by decide)⟩

/-- C10: the index-0 merkle branch does not depend on the leaf at index 0:
two equally long txid lists that differ only in their first element get the
same branch.  (This is why share validation — which folds a coinbase txid
computed *with* the extranonce — agrees with the updater's branch derived
from the txid computed *without* it.) -/
theorem c10_branch_independent_of_leaf (x y : List Nat) (t : List (List Nat)) :
    merkle_branch_for_index0 (x :: t) = merkle_branch_for_index0 (y :: t) := by
  by_cases h : (x :: t).length ≤ 1
  · have ht : t = [] := by
      cases t with
      | nil => rfl
      | cons a s => simp at h
    subst ht
    simp [merkle_branch_for_index0]
  · have h2 : ¬(y :: t).length ≤ 1 := by simpa using h
    simp only [merkle_branch_for_index0, if_neg h, if_neg h2]
    exact branchLoop_head_irrelevant t.length t x y le_rfl

/-- C4: `encode_height_bip34` emits the single byte `0x00` for height 0, the
single opcode byte `0x50 + h` (no length prefix) for `1 ≤ h ≤ 16`, and
`op_push(k)` followed by the `k`-byte minimally-encoded signed little-endian
script number of `h` for `h > 16` (the number decodes back to `h` and its top
byte leaves the sign bit clear); in particular height 500000 encodes to
`03 20 A1 07`. -/
theorem c4_bip34_height (h : Nat) :
    encode_height_bip34 0 = [0x00]
    ∧ (1 ≤ h → h ≤ 16 → encode_height_bip34 (h : Int) = [0x50 + h])
    ∧ (16 < h →
        encode_height_bip34 (h : Int)
          = op_push (minimalScriptNumLE h).length ++ minimalScriptNumLE h
        ∧ leNat (minimalScriptNumLE h) = h
        ∧ (minimalScriptNumLE h).getLastD 0 < 0x80)
    ∧ encode_height_bip34 500000 = [0x03, 0x20, 0xA1, 0x07] := by
  refine ⟨by decide, ?_, ?_, by decide⟩
  · intro h1 h16
    have hne : (h : Int) ≠ 0 := by
      have : h ≠ 0 := by omega
      exact_mod_cast this
    simp only [encode_height_bip34, if_neg hne]
    rw [if_pos ⟨by exact_mod_cast h1, by exact_mod_cast h16⟩]
    simp
  · intro h16
    have hne : (h : Int) ≠ 0 := by
      have : h ≠ 0 := by omega
      exact_mod_cast this
    have hnotsmall : ¬(1 ≤ (h : Int) ∧ (h : Int) ≤ 16) := by
      rintro ⟨_, hle⟩
      have : h ≤ 16 := by exact_mod_cast hle
      omega
    have hneg : ¬((h : Int) < 0) := by
      simp [Int.natCast_nonneg]
    have habs : (h : Int).natAbs = h := Int.natAbs_ofNat h
    have hb : (natLEBytesMin h).getLastD 0 < 256 :=
      natLEBytesMin_getLastD_lt h 0 (by norm_num)
    have hcond := and128_iff hb
    simp only [encode_height_bip34, if_neg hne, if_neg hnotsmall, if_neg hneg, habs,
      if_false]
    have hif : (if (natLEBytesMin h).getLastD 0 &&& 128 ≠ 0
          then natLEBytesMin h ++ [0] else natLEBytesMin h)
        = minimalScriptNumLE h := by
      rw [minimalScriptNumLE]
      exact if_congr hcond rfl rfl
    rw [hif]
    refine ⟨rfl, ?_, ?_⟩
    · rw [minimalScriptNumLE]
      split
      · rw [leNat_append_zero, leNat_natLEBytesMin]
      · rw [leNat_natLEBytesMin]
    · rw [minimalScriptNumLE]
      split
      · rw [getLastD_append_singleton]
        norm_num
      · next hcase => omega

theorem c4_bip34_height_witness :
    (1 ≤ 5 ∧ 5 ≤ 16 ∧ encode_height_bip34 ((5 : Nat) : Int) = [0x50 + 5])
    ∧ (16 < 20
      ∧ encode_height_bip34 ((20 : Nat) : Int)
          = op_push (minimalScriptNumLE 20).length ++ minimalScriptNumLE 20) :=
  ⟨⟨by decide, by decide, (c4_bip34_height 5).2.1 (by decide) (by decide)⟩,
   ⟨by decide, ((c4_bip34_height 20).2.2.1 (by decide)).1⟩⟩

/-- C5, counterexample: with an unchanged height (100 → 100) and a recent
last publish (timestamp 100, now 105, roll 30 s) and a payout script set,
`update_once` publishes nothing (`published = false`) yet returns `True` — so
its return value is *not* "whether it published a new job". -/
theorem c5_counterexample :
    (update_once_decision 100 100 100 105 30 true).2 = true
    ∧ (update_once_decision 100 100 100 105 30 true).1 = false := by
  decide

/-- C5, amended: `update_once` returns `False` exactly when the publish
condition (height changed or unset, or the ntime-roll interval elapsed or
unset) holds but no payout script is set; it returns `True` otherwise — both
when it published and when the publish condition did not hold.  It publishes
iff the publish condition holds and a payout script is set. -/
theorem c5_update_once_return_amended (ph pt hi ts roll : Int) (payout : Bool) :
    ((update_once_decision ph pt hi ts roll payout).2 = false ↔
      (((ph = -1 ∨ ph ≠ hi) ∨ (pt = -1 ∨ pt + roll ≤ ts)) ∧ payout = false))
    ∧ ((update_once_decision ph pt hi ts roll payout).1 = true ↔
      (((ph = -1 ∨ ph ≠ hi) ∨ (pt = -1 ∨ pt + roll ≤ ts)) ∧ payout = true)) := by
  rw [update_once_decision]
  by_cases hpub : (ph = -1 ∨ ph ≠ hi) ∨ (pt = -1 ∨ pt + roll ≤ ts)
  · rw [if_pos hpub]
    cases payout <;> simp [hpub]
  · rw [if_neg hpub]
    cases payout <;> simp [hpub]

/-- C6: the claim that brand-new sessions start at the configured
`vardiff_start_difficulty` fails against the code: `start_server` passes a
`start_difficulty=` keyword to `VarDiffManager(...)`, but
`VarDiffManager.__init__` accepts no such parameter (construction raises
`TypeError` as soon as VarDiff is enabled), and `_init_miner` starts every
new miner at `min_diff`; the refresh path in `update_once` likewise
initialises difficulty-less sessions to the divisor-based difficulty, never
to `vardiff_start_difficulty`. -/
theorem c6_vardiff_start_difficulty_bug :
    "start_difficulty" ∈ startServerVarDiffKwargs
    ∧ "start_difficulty" ∉ varDiffManagerInitParams
    ∧ (∀ (cfg : VDConfig) (now : ℚ), (initMiner cfg now).difficulty = cfg.min_diff)
    ∧ (∀ (vardiffEnabled : Bool) (divisorDifficulty : ℚ),
        updaterSessionDifficulty vardiffEnabled true none divisorDifficulty
          = divisorDifficulty) := by
  refine ⟨by decide, by decide, fun cfg now => rfl, fun e d => rfl⟩

theorem maybeRetarget_difficulty (cfg : VDConfig) (st : MinerState) (now : ℚ) :
    (maybeRetarget cfg st now).difficulty = st.difficulty
    ∨ ∃ x : ℚ, (maybeRetarget cfg st now).difficulty
        = max cfg.min_diff (min cfg.max_diff x) := by
  simp only [maybeRetarget]
  repeat' split
  all_goals first
    | exact Or.inl rfl
    | exact Or.inr ⟨_, rfl⟩

theorem maybeRetarget_bounds (cfg : VDConfig) (st : MinerState) (now : ℚ)
    (hmm : cfg.min_diff ≤ cfg.max_diff)
    (hinv : cfg.min_diff ≤ st.difficulty ∧ st.difficulty ≤ cfg.max_diff) :
    cfg.min_diff ≤ (maybeRetarget cfg st now).difficulty
    ∧ (maybeRetarget cfg st now).difficulty ≤ cfg.max_diff := by
  rcases maybeRetarget_difficulty cfg st now with h | ⟨x, h⟩
  · rw [h]; exact hinv
  · rw [h]
    exact ⟨le_max_left _ _, max_le hmm (min_le_left _ _)⟩

theorem recordShare_bounds (cfg : VDConfig) (st : MinerState) (sh : Option ℚ)
    (now retNow : ℚ) (hmm : cfg.min_diff ≤ cfg.max_diff)
    (hinv : cfg.min_diff ≤ st.difficulty ∧ st.difficulty ≤ cfg.max_diff) :
    cfg.min_diff ≤ (recordShare cfg st sh now retNow).difficulty
    ∧ (recordShare cfg st sh now retNow).difficulty ≤ cfg.max_diff := by
  unfold recordShare
  exact maybeRetarget_bounds cfg _ retNow hmm hinv

/-- C7, counterexample: with the `VarDiffManager` defaults (`min_diff = 16`,
`max_diff = 2e6`, headroom 0.9) a brand-new miner sits at `min_diff = 16`
after a single `record_share`, which exceeds
`min(max_diff, chain_headroom · network_diff) = 9` when the network
difficulty is 10 — so the claimed network-difficulty bound does not hold.
(In the source the headroom clamp is additionally dead code: its
`from ..state.template import global_state` always raises `ImportError`.) -/
theorem c7_counterexample :
    (runShares defaultVDConfig (initMiner defaultVDConfig 0)
        [(none, 5, 5)]).difficulty = 16
    ∧ ¬((runShares defaultVDConfig (initMiner defaultVDConfig 0)
          [(none, 5, 5)]).difficulty
        ≤ min defaultVDConfig.max_diff ((0.9 : ℚ) * 10)) := by
  have hd : (runShares defaultVDConfig (initMiner defaultVDConfig 0)
      [(none, 5, 5)]).difficulty = 16 := by decide
  refine ⟨hd, ?_⟩
  rw [hd]
  have hmin : min defaultVDConfig.max_diff ((0.9 : ℚ) * 10) = 9 := by
    rw [min_eq_right] <;> norm_num [defaultVDConfig]
  rw [hmin]
  norm_num

/-- C7, amended: for every configuration with `min_diff ≤ max_diff` and every
sequence of `record_share` calls on a freshly initialised miner, the stored
difficulty stays within `[min_diff, max_diff]`.  The additional
`chain_headroom · network_difficulty` cap of the claim is not enforced by the
code: `_init_miner` starts at `min_diff` regardless of the network difficulty,
and the clamp inside `_maybe_retarget` is dead code (`state/template.py`
defines no `global_state`, so its import always fails). -/
theorem c7_vardiff_bounds_amended (cfg : VDConfig) (now0 : ℚ)
    (events : List (Option ℚ × ℚ × ℚ)) (hmm : cfg.min_diff ≤ cfg.max_diff) :
    cfg.min_diff ≤ (runShares cfg (initMiner cfg now0) events).difficulty
    ∧ (runShares cfg (initMiner cfg now0) events).difficulty ≤ cfg.max_diff := by
  suffices H : ∀ st : MinerState,
      cfg.min_diff ≤ st.difficulty ∧ st.difficulty ≤ cfg.max_diff →
      cfg.min_diff ≤ (runShares cfg st events).difficulty
      ∧ (runShares cfg st events).difficulty ≤ cfg.max_diff by
    exact H _ ⟨le_rfl, hmm⟩
  induction events with
  | nil => intro st h; exact h
  | cons e rest ih =>
    intro st h
    simp only [runShares, List.foldl_cons]
    exact ih _ (recordShare_bounds cfg st e.1 e.2.1 e.2.2 hmm h)

theorem c7_vardiff_bounds_amended_witness :
    defaultVDConfig.min_diff ≤ defaultVDConfig.max_diff
    ∧ (defaultVDConfig.min_diff
        ≤ (runShares defaultVDConfig (initMiner defaultVDConfig 0) []).difficulty
      ∧ (runShares defaultVDConfig (initMiner defaultVDConfig 0) []).difficulty
        ≤ defaultVDConfig.max_diff) :=
  ⟨by decide, c7_vardiff_bounds_amended defaultVDConfig 0 [] (by decide)⟩

/-- C8, counterexample: a perfectly valid mainnet address (version byte 0,
20-byte hash) authorized while no job is ready makes `handle_authorize` fall
off the end and return `None` (a `null` JSON-RPC result), not `true` — this is
exactly the situation of the first miner to authorize, since no template can
be built before a payout script is known. -/
theorem c8_counterexample :
    handle_authorize false (some (0 :: List.replicate 20 0)) false
      = AuthOutcome.reply none
    ∧ AuthOutcome.reply none ≠ AuthOutcome.reply (some true) :=
  ⟨by decide, by decide⟩

/-- C8, amended: `handle_authorize` raises a JSON-RPC error — always with
code 20, answered as an error reply with the session kept — exactly when
base58check decoding fails, the version byte is outside the active network's
set ({0,5} mainnet, {111,196} testnet), or the decoded hash is not 20 bytes;
on a valid address it returns `true` when a job is ready and `None`
otherwise. -/
theorem c8_authorize_amended (testnet : Bool) (decoded : Option (List Nat))
    (jobReady : Bool) :
    (decoded = none → handle_authorize testnet decoded jobReady = .errorReply 20)
    ∧ (∀ a, decoded = some a →
        (a.headD 0 ∉ expectedVersions testnet ∨ (a.drop 1).length ≠ 20) →
        handle_authorize testnet decoded jobReady = .errorReply 20)
    ∧ (∀ a, decoded = some a →
        a.headD 0 ∈ expectedVersions testnet → (a.drop 1).length = 20 →
        handle_authorize testnet decoded jobReady
          = .reply (if jobReady then some true else none))
    ∧ (∀ c, handle_authorize testnet decoded jobReady = .errorReply c → c = 20) := by
  refine ⟨?_, ?_, ?_, ?_⟩
  · intro h; subst h; rfl
  · intro a ha hbad
    subst ha
    rcases hbad with hv | hl
    · simp only [handle_authorize]
      rw [if_pos hv]
    · simp only [handle_authorize]
      by_cases hv : a.headD 0 ∉ expectedVersions testnet
      · rw [if_pos hv]
      · rw [if_neg hv, if_pos hl]
  · intro a ha hv hl
    subst ha
    simp only [handle_authorize, if_neg (not_not_intro hv), if_neg (not_not_intro hl)]
    split <;> rfl
  · intro c hc
    match decoded with
    | none =>
      simp only [handle_authorize] at hc
      injection hc with h
      omega
    | some a =>
      simp only [handle_authorize] at hc
      by_cases hv : a.headD 0 ∉ expectedVersions testnet
      · rw [if_pos hv] at hc; injection hc with h; omega
      · rw [if_neg hv] at hc
        by_cases hl : (a.drop 1).length ≠ 20
        · rw [if_pos hl] at hc; injection hc with h; omega
        · rw [if_neg hl] at hc
          split at hc <;> exact absurd hc (by simp)

theorem c8_authorize_amended_witness :
    handle_authorize false none false = AuthOutcome.errorReply 20
    ∧ ((0 :: List.replicate 20 0).headD 0 ∈ expectedVersions false
      ∧ ((0 :: List.replicate 20 0).drop 1).length = 20
      ∧ handle_authorize false (some (0 :: List.replicate 20 0)) true
          = AuthOutcome.reply (if true then some true else none)) :=
  ⟨(c8_authorize_amended false none false).1 rfl,
   ⟨by decide, by decide,
    (c8_authorize_amended false (some (0 :: List.replicate 20 0)) true).2.2.1
      _ rfl (by decide) (by decide)⟩⟩

/-- A template snapshot whose parts are all present (used as a concrete
instance for the submit theorems). -/
def readyState : SubmitState :=
  ⟨0, some [], some [], some [], some [], [], 0, some [], some [], some 0⟩

/-- A template snapshot with the `coinbase1` split missing. -/
def notReadyState : SubmitState :=
  ⟨0, none, some [], some [], some [], [], 0, some [], some [], some 0⟩

/-- C9: `handle_submit` returns `false` whenever the submitted `job_id`
differs from the hex of the active `job_counter` — for every choice of
extranonce2/ntime/nonce, so the proof of work is never consulted — and
likewise whenever any coinbase split, the prev-hash-header bytes, the bits,
or the target is missing from the template.  In particular, after a new job
is published (a fresh `job_counter`), a submit naming any previous job id is
rejected. -/
theorem c9_submit_fast_rejects (st : SubmitState) (en1 : List Nat)
    (sent : Option ℚ) (jobId : String) (en2 ntime nonce : List Nat) :
    (jobId ≠ pyHex st.job_counter →
      handle_submit st en1 sent jobId en2 ntime nonce = false)
    ∧ ((st.coinbase1 = none ∨ st.coinbase2 = none ∨ st.coinbase1_nowit = none
        ∨ st.coinbase2_nowit = none ∨ st.prevHash_header = none
        ∨ st.bits_le = none ∨ st.target = none) →
      handle_submit st en1 sent jobId en2 ntime nonce = false) := by
  constructor
  · intro hne
    rw [handle_submit, if_pos hne]
  · intro hmiss
    by_cases hjob : jobId ≠ pyHex st.job_counter
    · rw [handle_submit, if_pos hjob]
    · rw [handle_submit, if_neg hjob]
      by_cases h2 : (st.coinbase1.isSome ∧ st.coinbase2.isSome
          ∧ st.coinbase1_nowit.isSome ∧ st.coinbase2_nowit.isSome)
      · rw [if_neg (not_not_intro h2)]
        have h3 : ¬(st.prevHash_header.isSome ∧ st.bits_le.isSome
            ∧ st.target.isSome) := by
          rcases hmiss with h | h | h | h | h | h | h
          · rw [h] at h2; simp at h2
          · rw [h] at h2; simp at h2
          · rw [h] at h2; simp at h2
          · rw [h] at h2; simp at h2
          · rintro ⟨hp, _, _⟩; rw [h] at hp; simp at hp
          · rintro ⟨_, hb, _⟩; rw [h] at hb; simp at hb
          · rintro ⟨_, _, htg⟩; rw [h] at htg; simp at htg
        rw [if_pos h3]
      · rw [if_pos h2]

theorem c9_submit_fast_rejects_witness :
    (("zz" : String) ≠ pyHex readyState.job_counter
      ∧ handle_submit readyState [] none "zz" [] [] [] = false)
    ∧ (notReadyState.coinbase1 = none
      ∧ handle_submit notReadyState [] none "0" [] [] [] = false) :=
  ⟨⟨by decide, (c9_submit_fast_rejects readyState [] none "zz" [] [] []).1
      (by decide)⟩,
   ⟨rfl, (c9_submit_fast_rejects notReadyState [] none "0" [] [] []).2
      (Or.inl rfl)⟩⟩

/-- C1: past the fast rejects, with `h` the little-endian integer value of
`sha512_256d` of the reconstructed 80-byte header: the submission is a block
iff `h ≤ target_int`; a block is always accepted; and a non-block is accepted
iff `share_diff / sent_difficulty ≥ 0.99` where
`share_diff = diff1_target / max(1, h)` (the division appearing literally in
the acceptance test below). -/
theorem c1_submit_classification (st : SubmitState) (en1 : List Nat)
    (sent : Option ℚ) (jobId : String) (en2 ntime nonce : List Nat) (t : Nat)
    (hjob : jobId = pyHex st.job_counter)
    (hcb : st.coinbase1.isSome ∧ st.coinbase2.isSome
        ∧ st.coinbase1_nowit.isSome ∧ st.coinbase2_nowit.isSome)
    (hhdr : st.prevHash_header.isSome ∧ st.bits_le.isSome)
    (ht : st.target = some t) :
    submitPow st en1 en2 ntime nonce
        = leNat (sha512_256d (reconstructHeader st en1 en2 ntime nonce))
    ∧ (submitPow st en1 en2 ntime nonce ≤ t →
        handle_submit st en1 sent jobId en2 ntime nonce = true)
    ∧ (¬(submitPow st en1 en2 ntime nonce ≤ t) →
        (handle_submit st en1 sent jobId en2 ntime nonce = true
          ↔ (DIFF1_TARGET : ℚ)
              / ((max 1 (submitPow st en1 en2 ntime nonce) : Nat) : ℚ)
              / sentDiffOf sent ≥ (0.99 : ℚ))) := by
  have hjob2 : ¬(jobId ≠ pyHex st.job_counter) := not_not_intro hjob
  have htg : st.target.isSome := by simp [ht]
  have hall : st.prevHash_header.isSome ∧ st.bits_le.isSome ∧ st.target.isSome :=
    ⟨hhdr.1, hhdr.2, htg⟩
  simp only [handle_submit, if_neg hjob2, if_neg (not_not_intro hcb),
    if_neg (not_not_intro hall)]
  simp only [ht, Option.getD_some]
  refine ⟨rfl, ?_, ?_⟩
  · intro hle
    refine if_neg ?_
    rintro ⟨hnb, _⟩
    exact hnb hle
  · intro hnle
    by_cases hsh : (DIFF1_TARGET : ℚ)
        / ((max 1 (submitPow st en1 en2 ntime nonce) : Nat) : ℚ)
        / sentDiffOf sent < (0.99 : ℚ)
    · rw [if_pos ⟨hnle, hsh⟩]
      exact iff_of_false (by simp) (not_le.mpr hsh)
    · rw [if_neg (by rintro ⟨_, hc⟩; exact hsh hc)]
      exact iff_of_true rfl (not_lt.mp hsh)

theorem c1_submit_classification_witness :
    (("0" : String) = pyHex readyState.job_counter
      ∧ (readyState.coinbase1.isSome ∧ readyState.coinbase2.isSome
        ∧ readyState.coinbase1_nowit.isSome ∧ readyState.coinbase2_nowit.isSome)
      ∧ (readyState.prevHash_header.isSome ∧ readyState.bits_le.isSome)
      ∧ readyState.target = some 0)
    ∧ (submitPow readyState [] [] [] []
        = leNat (sha512_256d (reconstructHeader readyState [] [] [] []))
      ∧ (submitPow readyState [] [] [] [] ≤ 0 →
          handle_submit readyState [] none "0" [] [] [] = true)
      ∧ (¬(submitPow readyState [] [] [] [] ≤ 0) →
          (handle_submit readyState [] none "0" [] [] [] = true
            ↔ (DIFF1_TARGET : ℚ)
                / ((max 1 (submitPow readyState [] [] [] []) : Nat) : ℚ)
                / sentDiffOf none ≥ (0.99 : ℚ)))) :=
  ⟨⟨by decide, by decide, by decide, rfl⟩,
   c1_submit_classification readyState [] none "0" [] [] [] 0
     (by decide) (by decide) (by decide) rfl⟩

end RxdProxy
